import Mathlib

/-!
Shallow embedding of the `fauevents` event-scheduling application.

The backend request handlers (Express routes over an SQL `Events` table and a
`Users` table) are modelled as pure functions over explicit store states.
Request bodies arrive as JSON, so every field is an `Option String`
(`none` models a missing key / JS `undefined`).  The SQL layer is modelled by
the row lists the handlers read and write; driver-level type validation of
bound parameters is outside the model boundary.

Sources embedded here:
* `src/server/server.js` — `POST /api/events` (time and description
  normalization, `userId || "anonymous"`), `GET /api/events`
  (`ORDER BY date DESC`, query string ignored), and the second variant's
  `POST /api/register` / `POST /api/login` (plaintext verifier).
* `src/unnamed/part_000` — `DELETE /api/events/:id`, and the bcrypt variant of
  `POST /api/register` / `POST /api/login`.
* `src/client/src/App.jsx` — `fetchEvents` URL choice, the approved/pending
  filters, `sortEvents`, and `handleApprove`'s local state update.
-/

namespace FauEvents

/-- JS falsiness of an optional string value: `!v` is `true` exactly when the
value is absent (`undefined`/`null`) or the empty string. -/
def jsFalsy : Option String → Bool
  | none => true
  | some s => s.isEmpty

/-- A character removed by `String.prototype.trim`: ECMAScript TrimString
strips WhiteSpace — TAB U+0009, VT U+000B, FF U+000C, SP U+0020, NBSP U+00A0,
ZWNBSP U+FEFF and the Unicode Zs category (U+0020, U+00A0, U+1680,
U+2000..U+200A, U+202F, U+205F, U+3000) — together with the LineTerminators
LF U+000A, CR U+000D, LS U+2028 and PS U+2029. -/
def isJsSpace (c : Char) : Bool :=
  c.toNat == 0x9 || c.toNat == 0xA || c.toNat == 0xB || c.toNat == 0xC ||
  c.toNat == 0xD || c.toNat == 0x20 || c.toNat == 0xA0 || c.toNat == 0x1680 ||
  (0x2000 ≤ c.toNat && c.toNat ≤ 0x200A) ||
  c.toNat == 0x2028 || c.toNat == 0x2029 || c.toNat == 0x202F ||
  c.toNat == 0x205F || c.toNat == 0x3000 || c.toNat == 0xFEFF

/-- JS `String.prototype.trim`: drop leading and trailing whitespace.
(Defined over the character list so that it evaluates in the kernel.) -/
def jsTrim (s : String) : String :=
  ⟨(((s.data.dropWhile isJsSpace).reverse.dropWhile isJsSpace).reverse)⟩

/-- The error taxonomy of the API surface (§7 of the spec):
400 missing field, 400/409 duplicate username, 401 bad login,
404 missing event, 403 non-admin attempting an admin action. -/
inductive ApiError where
  | invalidInput
  | duplicateUsername
  | invalidCredentials
  | notFound
  | permissionDenied
  deriving Repr, DecidableEq

instance {ε α : Type} [DecidableEq ε] [DecidableEq α] : DecidableEq (Except ε α) :=
  fun a b =>
    match a, b with
    | .ok x, .ok y =>
      if h : x = y then .isTrue (by rw [h]) else .isFalse (by simp [h])
    | .ok _, .error _ => .isFalse (by simp)
    | .error _, .ok _ => .isFalse (by simp)
    | .error e, .error f =>
      if h : e = f then .isTrue (by rw [h]) else .isFalse (by simp [h])

/-- A row of the `Events` table as created by `createEventsTableQuery` in
`src/server/server.js`: `id INT IDENTITY(1,1)`, `title`, `description` (nullable),
`date`, `time` (nullable), `userId`.  There is no `approved` column.
(`createdAt` is a server-side timestamp default and is not read by any
handler, so it is omitted from the model.) -/
structure EventRow where
  id : Nat
  title : String
  description : Option String
  date : String
  time : Option String
  userId : String
  deriving Repr, DecidableEq

/-- The `Events` table state: its rows plus the next `IDENTITY` value
(starts at 1, increments by 1, never reused). -/
structure EventStore where
  rows : List EventRow
  nextId : Nat
  deriving Repr, DecidableEq

/-- A fresh `Events` table. -/
def emptyEvents : EventStore := ⟨[], 1⟩

/-- The JSON body of `POST /api/events`:
`{ title, description, date, time, userId }`, each possibly missing. -/
structure CreateReq where
  title : Option String
  description : Option String
  date : Option String
  time : Option String
  userId : Option String
  deriving Repr, DecidableEq

/-- `src/server/server.js`, `POST /api/events`:
`if (!timeValue || timeValue === '09:00' || timeValue.trim() === '') timeValue = null;`. -/
def normalizeTimeValue (time : Option String) : Option String :=
  if jsFalsy time || time == some "09:00" || jsTrim (time.getD "") == "" then
    none
  else
    time

/-- `src/server/server.js`, `POST /api/events`:
`description && description.trim() !== '' ? description : null`. -/
def finalDescription (description : Option String) : Option String :=
  if !jsFalsy description && jsTrim (description.getD "") != "" then
    description
  else
    none

/-- `src/server/server.js`, `POST /api/events`: reject when `!title || !date`
(400), otherwise insert a row with normalized time and description and
`userId || 'anonymous'`, returning the inserted row.  On an error the
store is returned unchanged. -/
def createEvent (st : EventStore) (req : CreateReq) :
    Except ApiError EventRow × EventStore :=
  if jsFalsy req.title || jsFalsy req.date then
    (.error .invalidInput, st)
  else
    let row : EventRow :=
      { id := st.nextId
        title := req.title.getD ""
        description := finalDescription req.description
        date := req.date.getD ""
        time := normalizeTimeValue req.time
        userId := if jsFalsy req.userId then "anonymous" else req.userId.getD "" }
    (.ok row, ⟨st.rows ++ [row], st.nextId + 1⟩)

/-- Code points of a string, for kernel-computable lexicographic comparison. -/
def strKey (s : String) : List Nat := s.data.map Char.toNat

/-- Lexicographic less-or-equal on code-point lists. -/
def lexLe : List Nat → List Nat → Bool
  | [], _ => true
  | _ :: _, [] => false
  | a :: as, b :: bs =>
    if a < b then true else if b < a then false else lexLe as bs

theorem lexLe_refl : ∀ l : List Nat, lexLe l l = true
  | [] => rfl
  | a :: as => by simp [lexLe, lexLe_refl as]

theorem lexLe_trans :
    ∀ {l₁ l₂ l₃ : List Nat}, lexLe l₁ l₂ = true → lexLe l₂ l₃ = true →
      lexLe l₁ l₃ = true := by
  intro l₁
  induction l₁ with
  | nil => intro l₂ l₃ _ _; rfl
  | cons a as ih =>
    intro l₂ l₃ h₁ h₂
    cases l₂ with
    | nil => simp [lexLe] at h₁
    | cons b bs =>
      cases l₃ with
      | nil => simp [lexLe] at h₂
      | cons c cs =>
        simp only [lexLe] at h₁ h₂ ⊢
        split_ifs at h₁ h₂ ⊢ <;> first | rfl | omega | exact ih h₁ h₂

theorem lexLe_total : ∀ l₁ l₂ : List Nat, lexLe l₁ l₂ = true ∨ lexLe l₂ l₁ = true
  | [], _ => .inl rfl
  | _ :: _, [] => .inr rfl
  | a :: as, b :: bs => by
    simp only [lexLe]
    rcases lexLe_total as bs with h | h <;> split_ifs <;> simp [h]

/-- `ORDER BY date DESC` as a relation on event rows. -/
def dateDesc (a b : EventRow) : Prop :=
  lexLe (strKey b.date) (strKey a.date) = true

instance : DecidableRel dateDesc :=
  fun a b => instDecidableEqBool (lexLe (strKey b.date) (strKey a.date)) true

instance : IsTotal EventRow dateDesc :=
  ⟨fun a b => lexLe_total (strKey b.date) (strKey a.date)⟩

instance : IsTrans EventRow dateDesc :=
  ⟨fun _ _ _ h₁ h₂ => lexLe_trans h₂ h₁⟩

/-- `src/server/server.js`, `GET /api/events`: `SELECT id, title, description,
date, time, userId FROM Events ORDER BY date DESC`.  The handler reads no
query parameter: the client's `?includePending=true` flag is ignored, and no
approval filter exists (the table has no `approved` column).  SQL leaves the
relative order of rows with equal dates unspecified; the model picks the
stable order. -/
def getEvents (st : EventStore) (_includePending : Bool) : List EventRow :=
  st.rows.insertionSort dateDesc

/-- `src/unnamed/part_000`, `DELETE /api/events/:id`:
`DELETE FROM Events WHERE id = @id`, then 404 exactly when
`rowsAffected[0] === 0`.  The request carries no caller identity and the
handler performs no authorization check. -/
def deleteEvent (st : EventStore) (id : Nat) : Except ApiError Unit × EventStore :=
  let remaining := st.rows.filter (fun r => r.id != id)
  if remaining.length == st.rows.length then
    (.error .notFound, st)
  else
    (.ok (), ⟨remaining, st.nextId⟩)

/-- An event as held in the client's state (`App.jsx`).  The JSON sent by the
server has no `approved` key, so `approved` starts out absent (`none`);
`handleApprove` later writes `true` into local state.  The source tests
`approved === true || approved === 1`; in this model the SQL-bit form `1`
is subsumed by `some true`. -/
structure ClientEvent where
  id : Nat
  title : String
  description : Option String
  date : String
  time : Option String
  userId : String
  approved : Option Bool
  deriving Repr, DecidableEq

/-- The JSON wire shape of a server event, as parsed by the client: every
column of the row and no `approved` key. -/
def rowToClient (r : EventRow) : ClientEvent :=
  ⟨r.id, r.title, r.description, r.date, r.time, r.userId, none⟩

/-- `App.jsx`, `fetchEvents`: the admin (`username === 'FAUadmin'`) requests
`/api/events?includePending=true`; everyone else requests plain `/api/events`.
Returned here as the `includePending` flag carried by the URL. -/
def clientIncludePending (currentUser : Option String) : Bool :=
  currentUser == some "FAUadmin"

/-- `App.jsx`: `event.approved === true || event.approved === 1`. -/
def jsApprovedTrue (a : Option Bool) : Bool :=
  a == some true

/-- `App.jsx`: `!event.approved || event.approved === false || event.approved === 0`
(the pending test; `undefined`, `false` and `0` are all pending). -/
def jsApprovedPending (a : Option Bool) : Bool :=
  !(a.getD false)

/-- `App.jsx`: `approvedEvents = events.filter(e => e.approved === true || e.approved === 1)`. -/
def approvedEvents (events : List ClientEvent) : List ClientEvent :=
  events.filter (fun e => jsApprovedTrue e.approved)

/-- `App.jsx`: `pendingEvents = isAdmin ? events.filter(e => !e.approved || ...) : []`. -/
def pendingEvents (isAdmin : Bool) (events : List ClientEvent) : List ClientEvent :=
  if isAdmin then events.filter (fun e => jsApprovedPending e.approved) else []

/-- `App.jsx`, `sortEvents`: the key `new Date(date + "T" + (time || "00:00:00"))`,
modelled as the code points of the combined string (lexicographic order on
ISO date-time strings coincides with chronological order). -/
def sortKey (e : ClientEvent) : List Nat :=
  strKey (e.date ++ "T" ++ e.time.getD "00:00:00")

/-- Ascending comparator of `sortEvents` (`dateA - dateB`). -/
def ascLe (a b : ClientEvent) : Prop := lexLe (sortKey a) (sortKey b) = true

/-- Descending comparator of `sortEvents` (`dateB - dateA`). -/
def descLe (a b : ClientEvent) : Prop := lexLe (sortKey b) (sortKey a) = true

instance : DecidableRel ascLe :=
  fun a b => instDecidableEqBool (lexLe (sortKey a) (sortKey b)) true

instance : DecidableRel descLe :=
  fun a b => instDecidableEqBool (lexLe (sortKey b) (sortKey a)) true

instance : IsTotal ClientEvent ascLe :=
  ⟨fun a b => lexLe_total (sortKey a) (sortKey b)⟩

instance : IsTrans ClientEvent ascLe :=
  ⟨fun _ _ _ h₁ h₂ => lexLe_trans h₁ h₂⟩

instance : IsTotal ClientEvent descLe :=
  ⟨fun a b => lexLe_total (sortKey b) (sortKey a)⟩

instance : IsTrans ClientEvent descLe :=
  ⟨fun _ _ _ h₁ h₂ => lexLe_trans h₂ h₁⟩

/-- `App.jsx`, `sortEvents`: `[...eventList].sort((a, b) => sortOrder === 'asc'
? dateA - dateB : dateB - dateA)`.  `Array.prototype.sort` is required to be
stable, and a stable sort under a total preorder has a unique result, so the
stable `List.insertionSort` is a faithful model. -/
def sortEvents (sortOrder : String) (eventList : List ClientEvent) : List ClientEvent :=
  if sortOrder == "asc" then
    eventList.insertionSort ascLe
  else
    eventList.insertionSort descLe

/-- `App.jsx`, `handleApprove`: on a successful `PUT .../approve`, the local
update `events.map(e => e.id === id ? { ...e, approved: true } : e)`. -/
def approveLocal (events : List ClientEvent) (id : Nat) : List ClientEvent :=
  events.map (fun e => if e.id == id then { e with approved := some true } else e)

/-- A row of the `Users` table.  `src/server/server.js` (second variant)
declares `userId IDENTITY, username UNIQUE, passwordHash, email` (nullable);
`src/unnamed/part_000` declares `id IDENTITY, username UNIQUE, email NOT NULL,
password`.  One row shape covers both: `passwordHash` is whatever string the
register handler stored as the credential verifier. -/
structure UserRow where
  userId : Nat
  username : String
  passwordHash : String
  email : Option String
  deriving Repr, DecidableEq

/-- The `Users` table state. -/
structure UserStore where
  rows : List UserRow
  nextId : Nat
  deriving Repr, DecidableEq

/-- A fresh `Users` table. -/
def emptyUsers : UserStore := ⟨[], 1⟩

/-- The account view returned to callers: `userId`/`id`, `username`, `email` —
never the stored credential column. -/
structure AccountView where
  userId : Nat
  username : String
  email : Option String
  deriving Repr, DecidableEq

/-- The view a handler builds from a user row:
`{ userId, username, email }` (`src/server/server.js` login) and
`{ id, username, email }` (`src/unnamed/part_000` register and login). -/
def accountView (u : UserRow) : AccountView :=
  ⟨u.userId, u.username, u.email⟩

/-- `src/server/server.js` (second variant), `POST /api/register`:
400 when `!username || !password`; 409 when a row with the username exists;
otherwise `INSERT INTO Users (username, passwordHash, email) VALUES
(@username, @password, @email)` — the raw password itself is stored in the
`passwordHash` column ("storing plain password for this demo"), with
`email || null`.  The response carries no account view, only a message. -/
def registerV2 (st : UserStore) (username password email : Option String) :
    Except ApiError Unit × UserStore :=
  if jsFalsy username || jsFalsy password then
    (.error .invalidInput, st)
  else if st.rows.any (fun r => r.username == username.getD "") then
    (.error .duplicateUsername, st)
  else
    let row : UserRow :=
      ⟨st.nextId, username.getD "", password.getD "",
        if jsFalsy email then none else email⟩
    (.ok (), ⟨st.rows ++ [row], st.nextId + 1⟩)

/-- `src/server/server.js` (second variant), `POST /api/login`:
400 when `!username || !password`; then `SELECT userId, username, email FROM
Users WHERE username = @username AND passwordHash = @password` — a single
plaintext comparison; an empty recordset gives the uniform 401. -/
def loginV2 (st : UserStore) (username password : Option String) :
    Except ApiError AccountView :=
  if jsFalsy username || jsFalsy password then
    .error .invalidInput
  else
    match st.rows.find? (fun r =>
        r.username == username.getD "" && r.passwordHash == password.getD "") with
    | some u => .ok (accountView u)
    | none => .error .invalidCredentials

/-- `src/unnamed/part_000`, `POST /api/register`: 400 when any of username,
password, email is missing; 400 "Username already exists." when a row with the
username exists (no insert happens); otherwise stores `bcrypt.hash(password)`
and returns `{ id, username, email }`.  The hash function is the external
bcrypt collaborator, taken as a parameter. -/
def registerBcrypt (hash : String → String) (st : UserStore)
    (username password email : Option String) :
    Except ApiError AccountView × UserStore :=
  if jsFalsy username || jsFalsy password || jsFalsy email then
    (.error .invalidInput, st)
  else if st.rows.any (fun r => r.username == username.getD "") then
    (.error .duplicateUsername, st)
  else
    let row : UserRow :=
      ⟨st.nextId, username.getD "", hash (password.getD ""), some (email.getD "")⟩
    (.ok (accountView row), ⟨st.rows ++ [row], st.nextId + 1⟩)

/-- `src/unnamed/part_000`, `POST /api/login`: 400 when a field is missing;
look the username up; unknown username and failed `bcrypt.compare` both give
the identical 401 "Invalid username or password."; on success return
`{ id, username, email }` without the password column.  `compare` is the
external bcrypt collaborator, taken as a parameter. -/
def loginBcrypt (compare : String → String → Bool) (st : UserStore)
    (username password : Option String) : Except ApiError AccountView :=
  if jsFalsy username || jsFalsy password then
    .error .invalidInput
  else
    match st.rows.find? (fun r => r.username == username.getD "") with
    | none => .error .invalidCredentials
    | some u =>
      if compare (password.getD "") u.passwordHash then
        .ok (accountView u)
      else
        .error .invalidCredentials

/-- An event of the spec's Event Store (§3): identifier, title, optional
description, date, optional time, owner, and the `approved` flag that is
`false` until explicitly transitioned. -/
structure SpecEvent where
  id : Nat
  title : String
  description : Option String
  date : String
  time : Option String
  userId : String
  approved : Bool
  deriving Repr, DecidableEq

/-- Modelled from the spec: the server handler for `PUT /api/events/:id/approve`
is not present under `src/` — only its caller, `handleApprove` in
`src/client/src/App.jsx`, is.  Per §4.2, `setApproved(id) -> Event |
fails(NotFound)`: when no event has the id, report NotFound and leave the
store unchanged; otherwise mark the event approved (idempotently — approving
an already-approved event succeeds without effect) and return it. -/
def setApproved (rows : List SpecEvent) (id : Nat) :
    Except ApiError SpecEvent × List SpecEvent :=
  match rows.find? (fun e => e.id == id) with
  | none => (.error .notFound, rows)
  | some e =>
    (.ok { e with approved := true },
      rows.map (fun r => if r.id == id then { r with approved := true } else r))

/-- A blank optional string: missing, empty, or whitespace only. -/
def jsBlank (v : Option String) : Bool :=
  jsFalsy v || jsTrim (v.getD "") == ""

theorem normalizeTimeValue_of_blank {t : Option String} (h : jsBlank t = true) :
    normalizeTimeValue t = none := by
  unfold normalizeTimeValue
  unfold jsBlank at h
  rcases Bool.or_eq_true_iff.mp h with h' | h' <;> simp [h']

theorem normalizeTimeValue_of_nonblank {s : String} (h1 : jsBlank (some s) = false)
    (h2 : s ≠ "09:00") : normalizeTimeValue (some s) = some s := by
  unfold jsBlank at h1
  rw [Bool.or_eq_false_iff] at h1
  obtain ⟨ha, hb⟩ := h1
  simp only [Option.getD_some] at hb
  unfold normalizeTimeValue
  simp [ha, hb, h2]

theorem finalDescription_of_blank {d : Option String} (h : jsBlank d = true) :
    finalDescription d = none := by
  unfold jsBlank at h
  have hc : (!jsFalsy d && jsTrim (d.getD "") != "") = false := by
    rcases Bool.or_eq_true_iff.mp h with h' | h'
    · simp [h']
    · simp [bne, h']
  unfold finalDescription
  simp [hc]

/-- Shape of any successful `POST /api/events`: the inserted row. -/
theorem createEvent_ok {st : EventStore} {req : CreateReq} {r : EventRow}
    {st' : EventStore} (h : createEvent st req = (.ok r, st')) :
    r = { id := st.nextId
          title := req.title.getD ""
          description := finalDescription req.description
          date := req.date.getD ""
          time := normalizeTimeValue req.time
          userId := if jsFalsy req.userId then "anonymous" else req.userId.getD "" }
    ∧ st' = ⟨st.rows ++ [r], st.nextId + 1⟩ := by
  unfold createEvent at h
  split at h
  · simp at h
  · rw [Prod.mk.injEq] at h
    obtain ⟨h1, h2⟩ := h
    rw [Except.ok.injEq] at h1
    subst h1
    subst h2
    exact ⟨rfl, rfl⟩

/-- C1 (amended): `POST /api/events` assigns no approved flag at all — the
`Events` table has no `approved` column and the handler never computes one.
Every successfully created event, as seen by a client, has `approved` absent
(so not `true`), whatever the owner, the administrator identity included. -/
theorem create_leaves_approved_absent (st : EventStore) (req : CreateReq)
    (r : EventRow) (st' : EventStore) (h : createEvent st req = (.ok r, st')) :
    st'.rows = st.rows ++ [r] ∧ (rowToClient r).approved = none
      ∧ (rowToClient r).approved ≠ some true := by
  obtain ⟨_, hst⟩ := createEvent_ok h
  subst hst
  exact ⟨rfl, rfl, by simp [rowToClient]⟩

theorem create_leaves_approved_absent_w :
    ((createEvent emptyEvents
        ⟨some "Exam", none, some "2025-12-05", none, some "FAUadmin"⟩).2).rows
      = emptyEvents.rows ++ [⟨1, "Exam", none, "2025-12-05", none, "FAUadmin"⟩]
    ∧ (rowToClient ⟨1, "Exam", none, "2025-12-05", none, "FAUadmin"⟩).approved = none
    ∧ (rowToClient ⟨1, "Exam", none, "2025-12-05", none, "FAUadmin"⟩).approved
        ≠ some true :=
  create_leaves_approved_absent emptyEvents
    ⟨some "Exam", none, some "2025-12-05", none, some "FAUadmin"⟩
    ⟨1, "Exam", none, "2025-12-05", none, "FAUadmin"⟩
    ⟨[⟨1, "Exam", none, "2025-12-05", none, "FAUadmin"⟩], 2⟩ (by decide)

/-- C1 counterexample: creating an event as the administrator identity
(`FAUadmin`) yields an event whose approved flag is not `true` — it is absent —
contradicting the claim that admin-created events always have
`approved = true`. -/
theorem admin_create_not_approved_cex :
    (createEvent emptyEvents
        ⟨some "Exam", none, some "2025-12-05", none, some "FAUadmin"⟩).1
      = .ok ⟨1, "Exam", none, "2025-12-05", none, "FAUadmin"⟩
    ∧ (rowToClient ⟨1, "Exam", none, "2025-12-05", none, "FAUadmin"⟩).approved
        ≠ some true := by decide

/-- C5 (amended): `POST /api/events` normalizes a blank time (missing, empty,
or consisting only of JS whitespace) and the literal `"09:00"` to absent —
never a midnight or `"09:00"` sentinel — and a blank description to absent;
any other time string, malformed ones included, is not normalized to absent:
the handler's normalization leaves it unchanged, and that value is what gets
bound to the SQL time parameter (with a strict driver the request then fails,
so in no case does a malformed time become a stored absent time). -/
theorem blank_time_and_description_absent (st : EventStore) (req : CreateReq)
    (r : EventRow) (st' : EventStore) (h : createEvent st req = (.ok r, st')) :
    (jsBlank req.time = true → r.time = none)
    ∧ (req.time = some "09:00" → r.time = none)
    ∧ (∀ s : String, jsBlank (some s) = false → s ≠ "09:00" →
        normalizeTimeValue (some s) = some s)
    ∧ (jsBlank req.description = true → r.description = none) := by
  obtain ⟨hr, _⟩ := createEvent_ok h
  subst hr
  refine ⟨?_, ?_, ?_, ?_⟩
  · intro hb
    exact normalizeTimeValue_of_blank hb
  · intro h9
    show normalizeTimeValue req.time = none
    rw [h9]
    decide
  · intro s hnb h9
    exact normalizeTimeValue_of_nonblank hnb h9
  · intro hb
    exact finalDescription_of_blank hb

theorem blank_time_and_description_absent_w :
    (jsBlank (some "") = true →
      (⟨1, "Exam", none, "2025-12-05", none, "anonymous"⟩ : EventRow).time = none)
    ∧ ((some "" : Option String) = some "09:00" →
      (⟨1, "Exam", none, "2025-12-05", none, "anonymous"⟩ : EventRow).time = none)
    ∧ (jsBlank (some "14:30") = false ∧ "14:30" ≠ "09:00"
        ∧ normalizeTimeValue (some "14:30") = some "14:30")
    ∧ (jsBlank (none : Option String) = true →
      (⟨1, "Exam", none, "2025-12-05", none, "anonymous"⟩ : EventRow).description
        = none) := by
  have h := blank_time_and_description_absent emptyEvents
    ⟨some "Exam", none, some "2025-12-05", some "", none⟩
    ⟨1, "Exam", none, "2025-12-05", none, "anonymous"⟩
    ⟨[⟨1, "Exam", none, "2025-12-05", none, "anonymous"⟩], 2⟩ (by decide)
  exact ⟨h.1, h.2.1,
    ⟨by decide, by decide, h.2.2.1 "14:30" (by decide) (by decide)⟩, h.2.2.2⟩

/-- C5 counterexample: a malformed (non-blank) time string such as `"25:99"`
is not normalized to absent — the handler's normalization leaves it unchanged
and binds exactly this value to the SQL time parameter, so the create never
produces an event whose time is absent for this input (a strict driver
rejects the bound value and the request fails, storing nothing; in no case is
an event with absent time stored, contradicting the claim). -/
theorem malformed_time_not_absent_cex :
    normalizeTimeValue (some "25:99") = some "25:99"
    ∧ normalizeTimeValue (some "25:99") ≠ none := by decide

/-- C10 (confirmed): a create request whose time is exactly `"09:00"` behaves
identically to one with no time at all — the whole handler result coincides —
and when such a create succeeds the stored time is absent. -/
theorem time_0900_indistinguishable_from_absent (st : EventStore)
    (title description date userId : Option String) :
    createEvent st ⟨title, description, date, some "09:00", userId⟩
      = createEvent st ⟨title, description, date, none, userId⟩
    ∧ ∀ r st', createEvent st ⟨title, description, date, some "09:00", userId⟩
        = (.ok r, st') → r.time = none := by
  constructor
  · have h : normalizeTimeValue (some "09:00") = normalizeTimeValue none := by decide
    simp only [createEvent, h]
  · intro r st' h
    obtain ⟨hr, _⟩ := createEvent_ok h
    subst hr
    show normalizeTimeValue (some "09:00") = none
    decide

theorem time_0900_indistinguishable_from_absent_w :
    createEvent emptyEvents ⟨some "Exam", none, some "2025-12-05", some "09:00", none⟩
      = createEvent emptyEvents ⟨some "Exam", none, some "2025-12-05", none, none⟩
    ∧ (⟨1, "Exam", none, "2025-12-05", none, "anonymous"⟩ : EventRow).time = none :=
  ⟨(time_0900_indistinguishable_from_absent emptyEvents
      (some "Exam") none (some "2025-12-05") none).1,
   (time_0900_indistinguishable_from_absent emptyEvents
      (some "Exam") none (some "2025-12-05") none).2
      ⟨1, "Exam", none, "2025-12-05", none, "anonymous"⟩
      ⟨[⟨1, "Exam", none, "2025-12-05", none, "anonymous"⟩], 2⟩ (by decide)⟩

theorem deleteEvent_absent {st : EventStore} {id : Nat}
    (h : ∀ r ∈ st.rows, r.id ≠ id) :
    deleteEvent st id = (.error .notFound, st) := by
  have hf : st.rows.filter (fun r => r.id != id) = st.rows :=
    List.filter_eq_self.mpr (fun r hr => by simp [h r hr])
  unfold deleteEvent
  simp [hf]

theorem deleteEvent_present {st : EventStore} {id : Nat}
    (h : ∃ r ∈ st.rows, r.id = id) :
    deleteEvent st id
      = (.ok (), ⟨st.rows.filter (fun r => r.id != id), st.nextId⟩) := by
  obtain ⟨r, hr, hid⟩ := h
  have hlt : (st.rows.filter (fun r => r.id != id)).length < st.rows.length :=
    List.length_filter_lt_length_iff_exists.mpr ⟨r, hr, by simp [hid]⟩
  unfold deleteEvent
  simp [Nat.ne_of_lt hlt]

/-- C8 (confirmed): deleting an id not in the store reports NotFound and leaves
the store unchanged; deleting a present id succeeds, and deleting it again
reports NotFound while leaving the once-deleted store unchanged. -/
theorem delete_notFound_and_twice (st : EventStore) (id : Nat) :
    ((∀ r ∈ st.rows, r.id ≠ id) → deleteEvent st id = (.error .notFound, st))
    ∧ ((∃ r ∈ st.rows, r.id = id) →
        (deleteEvent st id).1 = .ok ()
        ∧ deleteEvent (deleteEvent st id).2 id
            = (.error .notFound, (deleteEvent st id).2)) := by
  refine ⟨fun h => deleteEvent_absent h, fun h => ?_⟩
  rw [deleteEvent_present h]
  refine ⟨rfl, ?_⟩
  apply deleteEvent_absent
  intro r hr
  have := (List.mem_filter.mp hr).2
  simpa using this

theorem delete_notFound_and_twice_w :
    deleteEvent emptyEvents 1 = (.error .notFound, emptyEvents)
    ∧ ((deleteEvent ⟨[⟨1, "Party", none, "2025-12-05", none, "bob"⟩], 2⟩ 1).1
        = .ok ()
      ∧ deleteEvent
          (deleteEvent ⟨[⟨1, "Party", none, "2025-12-05", none, "bob"⟩], 2⟩ 1).2 1
        = (.error .notFound,
           (deleteEvent ⟨[⟨1, "Party", none, "2025-12-05", none, "bob"⟩], 2⟩ 1).2)) :=
  ⟨(delete_notFound_and_twice emptyEvents 1).1 (by simp [emptyEvents]),
   (delete_notFound_and_twice ⟨[⟨1, "Party", none, "2025-12-05", none, "bob"⟩], 2⟩ 1).2
     ⟨⟨1, "Party", none, "2025-12-05", none, "bob"⟩, by decide, rfl⟩⟩

/-- C3 (amended): `DELETE /api/events/:id` performs no authorization check —
the request carries no caller identity at all, so a delete issued by any
caller, non-admins included, succeeds on a present id (mutating the store) and
can only fail with NotFound; PermissionDenied is never reported.  The only
admin gating is in the client UI, which hides the button from non-admins. -/
theorem delete_never_permissionDenied (st : EventStore) (id : Nat) :
    (deleteEvent st id).1 ≠ .error .permissionDenied
    ∧ ((∃ r ∈ st.rows, r.id = id) →
        (deleteEvent st id).1 = .ok ()
        ∧ (deleteEvent st id).2.rows.length < st.rows.length) := by
  constructor
  · simp only [deleteEvent]
    split <;> simp
  · intro h
    obtain ⟨r, hr, hid⟩ := h
    rw [deleteEvent_present ⟨r, hr, hid⟩]
    exact ⟨rfl,
      List.length_filter_lt_length_iff_exists.mpr ⟨r, hr, by simp [hid]⟩⟩

theorem delete_never_permissionDenied_w :
    (deleteEvent ⟨[⟨1, "Party", none, "2025-12-05", none, "bob"⟩], 2⟩ 1).1
        ≠ .error .permissionDenied
    ∧ ((deleteEvent ⟨[⟨1, "Party", none, "2025-12-05", none, "bob"⟩], 2⟩ 1).1
          = .ok ()
      ∧ (deleteEvent ⟨[⟨1, "Party", none, "2025-12-05", none, "bob"⟩], 2⟩ 1).2.rows.length
          < (⟨[⟨1, "Party", none, "2025-12-05", none, "bob"⟩], 2⟩ : EventStore).rows.length) :=
  ⟨(delete_never_permissionDenied ⟨[⟨1, "Party", none, "2025-12-05", none, "bob"⟩], 2⟩ 1).1,
   (delete_never_permissionDenied ⟨[⟨1, "Party", none, "2025-12-05", none, "bob"⟩], 2⟩ 1).2
     ⟨⟨1, "Party", none, "2025-12-05", none, "bob"⟩, by decide, rfl⟩⟩

/-- C3 counterexample: a delete of an existing event — issued without any
administrator identity, since the endpoint reads none — succeeds and removes
the event, instead of failing with PermissionDenied and leaving the store
unchanged. -/
theorem nonadmin_delete_succeeds_cex :
    deleteEvent ⟨[⟨1, "Party", none, "2025-12-05", none, "bob"⟩], 2⟩ 1
      = (.ok (), ⟨[], 2⟩)
    ∧ (deleteEvent ⟨[⟨1, "Party", none, "2025-12-05", none, "bob"⟩], 2⟩ 1).1
        ≠ .error .permissionDenied
    ∧ (deleteEvent ⟨[⟨1, "Party", none, "2025-12-05", none, "bob"⟩], 2⟩ 1).2
        ≠ ⟨[⟨1, "Party", none, "2025-12-05", none, "bob"⟩], 2⟩ := by decide

/-- The per-row update performed by `setApproved`. -/
def approveRow (id : Nat) (r : SpecEvent) : SpecEvent :=
  if r.id == id then { r with approved := true } else r

theorem approveRow_id (id : Nat) (r : SpecEvent) : (approveRow id r).id = r.id := by
  unfold approveRow
  split <;> rfl

theorem approveRow_idem (id : Nat) (r : SpecEvent) :
    approveRow id (approveRow id r) = approveRow id r := by
  unfold approveRow
  split <;> simp_all

/-- C4 (confirmed, modelled from the spec): `setApproved` reports NotFound on
an absent id (leaving the store unchanged), and on a present id it succeeds;
running it a second time succeeds again and returns the same event and the
same final store — idempotence. -/
theorem setApproved_idempotent (rows : List SpecEvent) (id : Nat) :
    ((∀ e ∈ rows, e.id ≠ id) → setApproved rows id = (.error .notFound, rows))
    ∧ ((∃ e ∈ rows, e.id = id) →
        ∃ ev rows₁, setApproved rows id = (.ok ev, rows₁)
          ∧ setApproved rows₁ id = (.ok ev, rows₁)) := by
  constructor
  · intro h
    have hf : rows.find? (fun e => e.id == id) = none :=
      List.find?_eq_none.mpr (fun e he => by simp [h e he])
    unfold setApproved
    rw [hf]
  · intro h
    have hsome : (rows.find? (fun e => e.id == id)).isSome := by
      rw [List.find?_isSome]
      obtain ⟨e, he, hid⟩ := h
      exact ⟨e, he, by simp [hid]⟩
    obtain ⟨e₀, hf⟩ := Option.isSome_iff_exists.mp hsome
    have he₀ : (e₀.id == id) = true :=
      @List.find?_some SpecEvent (fun e => e.id == id) e₀ rows hf
    refine ⟨{ e₀ with approved := true }, rows.map (approveRow id), ?_, ?_⟩
    · unfold setApproved
      rw [hf]
      rfl
    · have hfind : (rows.map (approveRow id)).find? (fun e => e.id == id)
          = some (approveRow id e₀) := by
        rw [List.find?_map]
        have hp : ((fun e => e.id == id) ∘ approveRow id) = fun e => e.id == id := by
          funext r
          simp [Function.comp, approveRow_id]
        rw [hp, hf]
        rfl
      unfold setApproved
      rw [hfind]
      have hae : approveRow id e₀ = { e₀ with approved := true } := by
        unfold approveRow
        rw [he₀]
        simp
      dsimp only
      rw [Prod.mk.injEq]
      refine ⟨by simp [hae], ?_⟩
      show (rows.map (approveRow id)).map (approveRow id) = rows.map (approveRow id)
      rw [List.map_map]
      exact List.map_congr_left (fun r _ => approveRow_idem id r)

theorem setApproved_idempotent_w :
    setApproved [] 1 = (.error .notFound, [])
    ∧ ∃ ev rows₁,
        setApproved [⟨1, "Exam", none, "2025-12-05", none, "bob", false⟩] 1
          = (.ok ev, rows₁)
        ∧ setApproved rows₁ 1 = (.ok ev, rows₁) :=
  ⟨(setApproved_idempotent [] 1).1 (by simp),
   (setApproved_idempotent [⟨1, "Exam", none, "2025-12-05", none, "bob", false⟩] 1).2
     ⟨⟨1, "Exam", none, "2025-12-05", none, "bob", false⟩, by decide, rfl⟩⟩

/-- C2 (amended): the server applies no approval filter — `GET /api/events`
returns a permutation of every stored row for every caller, the non-admin URL
included, so pending events are not dropped by the list operation itself.
The guarantee the claim describes holds only of the client-side approved
filter: every event it keeps has `approved` strictly `true`, and events
without that flag are silently dropped from the filtered view, with no
error path. -/
theorem list_unfiltered_but_client_filter_approved (st : EventStore) (b : Bool) :
    (getEvents st b).Perm st.rows
    ∧ ∀ (events : List ClientEvent), ∀ e ∈ approvedEvents events,
        e.approved = some true := by
  refine ⟨List.perm_insertionSort dateDesc st.rows, ?_⟩
  intro events e he
  have h := (List.mem_filter.mp he).2
  unfold jsApprovedTrue at h
  exact beq_iff_eq.mp h

theorem list_unfiltered_but_client_filter_approved_w :
    (getEvents ⟨[⟨1, "Party", none, "2025-12-05", none, "bob"⟩], 2⟩ false).Perm
      [⟨1, "Party", none, "2025-12-05", none, "bob"⟩]
    ∧ (⟨1, "Party", none, "2025-12-05", none, "bob", some true⟩ : ClientEvent).approved
        = some true :=
  ⟨(list_unfiltered_but_client_filter_approved
      ⟨[⟨1, "Party", none, "2025-12-05", none, "bob"⟩], 2⟩ false).1,
   (list_unfiltered_but_client_filter_approved
      ⟨[⟨1, "Party", none, "2025-12-05", none, "bob"⟩], 2⟩ false).2
     [⟨1, "Party", none, "2025-12-05", none, "bob", some true⟩]
     ⟨1, "Party", none, "2025-12-05", none, "bob", some true⟩ (by decide)⟩

/-- C2 counterexample: with one pending event in the store (created by a
non-admin and never approved — the server cannot approve), the list returned
for a non-admin caller (whose URL carries no `includePending`) contains that
event, which is pending by the client's own test and whose approved flag is
not `true` — so pending events are not excluded from a non-admin's list. -/
theorem nonadmin_list_contains_pending_cex :
    clientIncludePending (some "bob") = false
    ∧ (getEvents
        (createEvent emptyEvents
          ⟨some "Party", none, some "2025-12-05", none, some "bob"⟩).2
        (clientIncludePending (some "bob"))).map rowToClient
      = [⟨1, "Party", none, "2025-12-05", none, "bob", none⟩]
    ∧ jsApprovedPending
        (⟨1, "Party", none, "2025-12-05", none, "bob", none⟩ : ClientEvent).approved
      = true
    ∧ (⟨1, "Party", none, "2025-12-05", none, "bob", none⟩ : ClientEvent).approved
      ≠ some true := by decide

/-- C6 (amended): `src/server/server.js`'s register stores the raw password
itself as the credential column (its own comment: "storing plain password for
this demo"), while the `src/unnamed/part_000` variant stores `bcrypt.hash` of
the password; in both variants the account views returned by register and
login are built only from the id, username and email columns and are unchanged
under any change of the stored credential. -/
theorem register_verifier_and_views (hash : String → String) (st : UserStore)
    (username password email : Option String) :
    (∀ r ∈ (registerV2 st username password email).2.rows,
        r ∈ st.rows ∨ r.passwordHash = password.getD "")
    ∧ (∀ r ∈ (registerBcrypt hash st username password email).2.rows,
        r ∈ st.rows ∨ r.passwordHash = hash (password.getD ""))
    ∧ (∀ (u : UserRow) (pw : String),
        accountView { u with passwordHash := pw } = accountView u) := by
  refine ⟨?_, ?_, fun u pw => rfl⟩
  · intro r hr
    unfold registerV2 at hr
    split at hr
    · exact .inl hr
    · split at hr
      · exact .inl hr
      · rcases List.mem_append.mp hr with h | h
        · exact .inl h
        · right
          rw [List.mem_singleton.mp h]
  · intro r hr
    unfold registerBcrypt at hr
    split at hr
    · exact .inl hr
    · split at hr
      · exact .inl hr
      · rcases List.mem_append.mp hr with h | h
        · exact .inl h
        · right
          rw [List.mem_singleton.mp h]

theorem register_verifier_and_views_w :
    ((⟨1, "alice", "hunter2", none⟩ : UserRow) ∈ emptyUsers.rows
      ∨ (⟨1, "alice", "hunter2", none⟩ : UserRow).passwordHash = "hunter2")
    ∧ accountView ⟨1, "alice", "x", none⟩ = accountView ⟨1, "alice", "hunter2", none⟩ :=
  ⟨(register_verifier_and_views (fun s => s) emptyUsers
      (some "alice") (some "hunter2") none).1
     ⟨1, "alice", "hunter2", none⟩ (by decide),
   (register_verifier_and_views (fun s => s) emptyUsers
      (some "alice") (some "hunter2") none).2.2 ⟨1, "alice", "hunter2", none⟩ "x"⟩

/-- C6 counterexample: after one registration through `src/server/server.js`'s
handler, the account store holds the caller's raw password verbatim in the
credential column — the store does contain a raw password. -/
theorem register_stores_raw_password_cex :
    registerV2 emptyUsers (some "alice") (some "hunter2") none
      = (.ok (), ⟨[⟨1, "alice", "hunter2", none⟩], 2⟩)
    ∧ (⟨1, "alice", "hunter2", none⟩ : UserRow).passwordHash = "hunter2" := by decide

/-- C7 (confirmed): registering a username already in the store fails with
DuplicateUsername before anything is inserted — the store is returned
unchanged — and registering a fresh username then logging in with the same
credentials succeeds and returns exactly the account view that register
returned (the same identity).  `hash`/`compare` are the external bcrypt
collaborators, assumed to satisfy the library's round-trip contract. -/
theorem register_then_login_same_identity (hash : String → String)
    (compare : String → String → Bool)
    (hbc : ∀ p, compare p (hash p) = true)
    (st : UserStore) (u p e : String) (hu : u ≠ "") (hp : p ≠ "") (he : e ≠ "") :
    ((∃ r ∈ st.rows, r.username = u) →
        registerBcrypt hash st (some u) (some p) (some e)
          = (.error .duplicateUsername, st))
    ∧ ((∀ r ∈ st.rows, r.username ≠ u) →
        registerBcrypt hash st (some u) (some p) (some e)
          = (.ok ⟨st.nextId, u, some e⟩,
             ⟨st.rows ++ [⟨st.nextId, u, hash p, some e⟩], st.nextId + 1⟩)
        ∧ loginBcrypt compare
            ⟨st.rows ++ [⟨st.nextId, u, hash p, some e⟩], st.nextId + 1⟩
            (some u) (some p)
          = .ok ⟨st.nextId, u, some e⟩) := by
  have hfu : jsFalsy (some u) = false := by
    show u.isEmpty = false
    rw [Bool.eq_false_iff]
    intro hcon
    exact hu ((String.isEmpty_iff u).mp hcon)
  have hfp : jsFalsy (some p) = false := by
    show p.isEmpty = false
    rw [Bool.eq_false_iff]
    intro hcon
    exact hp ((String.isEmpty_iff p).mp hcon)
  have hfe : jsFalsy (some e) = false := by
    show e.isEmpty = false
    rw [Bool.eq_false_iff]
    intro hcon
    exact he ((String.isEmpty_iff e).mp hcon)
  constructor
  · intro h
    obtain ⟨r, hr, hname⟩ := h
    have hdup : (st.rows.any fun r => r.username == (some u).getD "") = true :=
      List.any_eq_true.mpr ⟨r, hr, by simp [hname]⟩
    unfold registerBcrypt
    rw [hfu, hfp, hfe, hdup]
    simp
  · intro h
    have hdup : (st.rows.any fun r => r.username == (some u).getD "") = false := by
      rw [Bool.eq_false_iff]
      intro hcon
      obtain ⟨r, hr, hbeq⟩ := List.any_eq_true.mp hcon
      exact h r hr (by simpa using hbeq)
    constructor
    · unfold registerBcrypt
      rw [hfu, hfp, hfe, hdup]
      simp [accountView]
    · have hleft : st.rows.find? (fun r => r.username == (some u).getD "") = none :=
        List.find?_eq_none.mpr (fun r hr => by simp [h r hr])
      have hfind :
          List.find? (fun r => r.username == (some u).getD "")
              (st.rows ++ [⟨st.nextId, u, hash p, some e⟩])
            = some ⟨st.nextId, u, hash p, some e⟩ := by
        rw [List.find?_append, hleft, Option.none_or]
        simp [List.find?]
      unfold loginBcrypt
      rw [hfu, hfp, hfind]
      simp [hbc p, accountView]

theorem register_then_login_same_identity_w :
    registerBcrypt (fun s => "#" ++ s) emptyUsers
        (some "alice") (some "pw") (some "a@b")
        = (.ok ⟨1, "alice", some "a@b"⟩,
           ⟨[⟨1, "alice", "#pw", some "a@b"⟩], 2⟩)
    ∧ loginBcrypt (fun q h => h == "#" ++ q)
        ⟨[⟨1, "alice", "#pw", some "a@b"⟩], 2⟩ (some "alice") (some "pw")
        = .ok ⟨1, "alice", some "a@b"⟩ :=
  (register_then_login_same_identity (fun s => "#" ++ s)
      (fun q h => h == "#" ++ q) (fun q => by simp)
      emptyUsers "alice" "pw" "a@b"
      (by decide) (by decide) (by decide)).2
      (by intro r hr; simp [emptyUsers] at hr)

/-- Stability of the stable sort, phrased per key class: the subsequence of
events whose sort key equals any fixed value is unchanged by sorting. -/
theorem insertionSort_filter_sortKey (r : ClientEvent → ClientEvent → Prop)
    [DecidableRel r] (hkey : ∀ a b, sortKey a = sortKey b → r a b)
    (evs : List ClientEvent) (K : List Nat) :
    (evs.insertionSort r).filter (fun e => sortKey e == K)
      = evs.filter (fun e => sortKey e == K) := by
  set p : ClientEvent → Bool := fun e => sortKey e == K with hp
  have hmemkey : ∀ a ∈ evs.filter p, sortKey a = K := by
    intro a ha
    have hpa := (List.mem_filter.mp ha).2
    rw [hp] at hpa
    exact beq_iff_eq.mp hpa
  have hpw : (evs.filter p).Pairwise r := by
    apply List.pairwise_of_forall_mem_list
    intro a ha b hb
    exact hkey a b ((hmemkey a ha).trans (hmemkey b hb).symm)
  have hsub : (evs.filter p).Sublist (evs.insertionSort r) :=
    List.sublist_insertionSort hpw (List.filter_sublist evs)
  have hff : (evs.filter p).filter p = evs.filter p :=
    List.filter_eq_self.mpr (fun a ha => (List.mem_filter.mp ha).2)
  have hsub2 : (evs.filter p).Sublist ((evs.insertionSort r).filter p) := by
    have hft := List.Sublist.filter p hsub
    rwa [hff] at hft
  have hperm : ((evs.insertionSort r).filter p).Perm (evs.filter p) :=
    (List.perm_insertionSort r evs).filter p
  exact (hsub2.eq_of_length hperm.length_eq.symm).symm

/-- C9 (amended): `sortEvents` orders the displayed list by the combined
date-plus-time key, ascending when the caller-requested sort key is `"asc"`
and descending otherwise, and it is a permutation of its input; events with
identical date and time keep their original relative input order (the sort is
stable) — they are not re-ordered to identifier-ascending. -/
theorem sortEvents_sorted_and_stable (sortOrder : String)
    (evs : List ClientEvent) :
    (sortOrder = "asc" → (sortEvents sortOrder evs).Sorted ascLe)
    ∧ (sortOrder ≠ "asc" → (sortEvents sortOrder evs).Sorted descLe)
    ∧ (sortEvents sortOrder evs).Perm evs
    ∧ ∀ K : List Nat,
        (sortEvents sortOrder evs).filter (fun e => sortKey e == K)
          = evs.filter (fun e => sortKey e == K) := by
  by_cases hord : sortOrder = "asc"
  · have hsel : sortEvents sortOrder evs = evs.insertionSort ascLe := by
      unfold sortEvents
      rw [hord]
      simp
    rw [hsel]
    refine ⟨fun _ => List.sorted_insertionSort ascLe evs,
      fun hne => absurd hord hne,
      List.perm_insertionSort ascLe evs,
      fun K => insertionSort_filter_sortKey ascLe ?_ evs K⟩
    intro a b hk
    show lexLe (sortKey a) (sortKey b) = true
    rw [hk]
    exact lexLe_refl _
  · have hbeq : (sortOrder == "asc") = false := beq_eq_false_iff_ne.mpr hord
    have hsel : sortEvents sortOrder evs = evs.insertionSort descLe := by
      unfold sortEvents
      simp [hbeq]
    rw [hsel]
    refine ⟨fun heq => absurd heq hord,
      fun _ => List.sorted_insertionSort descLe evs,
      List.perm_insertionSort descLe evs,
      fun K => insertionSort_filter_sortKey descLe ?_ evs K⟩
    intro a b hk
    show lexLe (sortKey b) (sortKey a) = true
    rw [hk]
    exact lexLe_refl _

theorem sortEvents_sorted_and_stable_w :
    (sortEvents "asc"
      [⟨2, "A", none, "2025-12-05", some "10:00:00", "u", none⟩,
       ⟨1, "B", none, "2025-12-04", none, "u", none⟩]).Sorted ascLe
    ∧ (sortEvents "desc"
      [⟨2, "A", none, "2025-12-05", some "10:00:00", "u", none⟩,
       ⟨1, "B", none, "2025-12-04", none, "u", none⟩]).Sorted descLe :=
  ⟨(sortEvents_sorted_and_stable "asc"
      [⟨2, "A", none, "2025-12-05", some "10:00:00", "u", none⟩,
       ⟨1, "B", none, "2025-12-04", none, "u", none⟩]).1 rfl,
   (sortEvents_sorted_and_stable "desc"
      [⟨2, "A", none, "2025-12-05", some "10:00:00", "u", none⟩,
       ⟨1, "B", none, "2025-12-04", none, "u", none⟩]).2.1 (by decide)⟩

/-- C9 counterexample: two events with identical date and time, listed with
the larger identifier first, keep that order through `sortEvents` — the output
ids are `[2, 1]`, not the identifier-ascending `[1, 2]` the claim requires for
ties. -/
theorem sort_tie_not_id_ascending_cex :
    sortKey ⟨2, "A", none, "2025-12-05", some "10:00:00", "u", none⟩
      = sortKey ⟨1, "B", none, "2025-12-05", some "10:00:00", "u", none⟩
    ∧ (sortEvents "asc"
        [⟨2, "A", none, "2025-12-05", some "10:00:00", "u", none⟩,
         ⟨1, "B", none, "2025-12-05", some "10:00:00", "u", none⟩]).map
          ClientEvent.id
      = [2, 1] := by decide

end FauEvents
